import Mathlib

/-!
# Verification of the VoicePanel voice-chat subsystem

Shallow embedding of the voice-chat component of the `chit-mates` frontend
(`VoicePanel`): the local session state machine, mute/track-enablement
logic, peer-mesh reconciliation against participant rosters, and the
prop-driven forced-teardown effects.

The component's React state, refs and props are gathered into one
`PanelState` record.  Imperative side effects (socket emissions, media
capture, connection/stream lifecycle calls) are recorded in an explicit
`Effect` log returned alongside the updated state.  Fallible code paths
(the `throw new Error("Local stream missing")` branch of
`ensurePeerConnection`) are embedded with `Except`.
-/

namespace VoicePanel

/-- `voiceStatus` state: `"idle" | "starting" | "online"`. -/
inductive VoiceStatus
  | idle
  | starting
  | online
deriving DecidableEq, Repr

/-- Abstraction of `RTCPeerConnection.signalingState` as far as the panel
observes it: `"stable"`, `"have-local-offer"` (after `setLocalDescription`
of an offer), `"have-remote-offer"` (after `setRemoteDescription` of an
offer, transient inside `handleOffer`). -/
inductive SignalingState
  | stable
  | haveLocalOffer
  | haveRemoteOffer
deriving DecidableEq, Repr

/-- The `PeerRecord` interface: one entry per remote participant in the
mesh, keyed by participant id in `peersRef`. -/
structure PeerRecord where
  targetPlayerId : String
  negotiated : Bool
  signaling : SignalingState
deriving DecidableEq, Repr

/-- The `VoiceParticipant` payload type (`types/api.ts`). -/
structure Participant where
  playerId : String
  displayName : String
  isMuted : Bool
  isAutoMuted : Bool
  pushToTalkPressed : Bool
deriving DecidableEq, Repr

/-- The local microphone stream; `enabled` models the `enabled` flag of
its audio tracks (the panel sets them all together). -/
structure LocalStream where
  enabled : Bool
deriving DecidableEq, Repr

/-- Outbound socket messages the panel can emit. -/
inductive SocketEvent
  | voiceReady
  | voiceLeave
  | voiceOffer (targetPlayerId : String)
  | voiceAnswer (targetPlayerId : String)
  | voiceMute (isMuted : Bool)
  | voiceAutoMute (isMuted : Bool)
  | voicePushToTalk (isPressed : Bool)
deriving DecidableEq, Repr

/-- Imperative side effects of the panel, recorded as a log. -/
inductive Effect
  | emit (event : SocketEvent)
  | captureMic
  | createConnection (id : String)
  | closeConnection (id : String)
  | stopRemoteStream (id : String)
  | stopLocalTrack
deriving DecidableEq, Repr

/-- The panel's combined props (`socket`, `roomCode`, `player`,
`isConnected`, `isMatchActive`, `shouldForceDisconnect` — nullable input
objects are modelled by presence booleans / `Option`), React state and
refs (`voiceStatus`, the three mute flags, `participants`, messages,
`localStreamRef`, `peersRef`, the remote-stream table). -/
structure PanelState where
  socket : Bool
  roomCode : Bool
  selfPlayerId : Option String
  isConnected : Bool
  isMatchActive : Bool
  shouldForceDisconnect : Bool
  voiceStatus : VoiceStatus
  manualMuted : Bool
  autoMuted : Bool
  pushActive : Bool
  participants : List Participant
  voiceError : Option String
  infoMessage : Option String
  localStream : Option LocalStream
  peers : List (String × PeerRecord)
  remoteStreams : List String
deriving DecidableEq, Repr

/-- Boolean membership in a list of ids. -/
def memb (id : String) : List String → Bool
  | [] => false
  | x :: rest => if x = id then true else memb id rest

/-- First record stored under a key in the peer table (JS `Map.get`). -/
def findPeer : List (String × PeerRecord) → String → Option PeerRecord
  | [], _ => none
  | e :: rest, id => if e.1 = id then some e.2 else findPeer rest id

/-- JS `Map.set`: overwrite in place if the key exists, append otherwise. -/
def setPeer : List (String × PeerRecord) → String → PeerRecord → List (String × PeerRecord)
  | [], id, r => [(id, r)]
  | e :: rest, id, r => if e.1 = id then (id, r) :: rest else e :: setPeer rest id r

/-- Whether the peer table holds a record for an id (JS `Map.has`). -/
def hasKey (peers : List (String × PeerRecord)) (id : String) : Bool :=
  (findPeer peers id).isSome

/-- `canJoin`: `Boolean(socket && isConnected && isMatchActive && roomCode && player)`. -/
def canJoin (s : PanelState) : Bool :=
  s.socket && s.isConnected && s.isMatchActive && s.roomCode && s.selfPlayerId.isSome

/-- `applyTrackState`: if a local stream exists, set every audio track's
`enabled` to `!autoMuted && (!manualMuted || pushActive)`. -/
def applyTrackState (s : PanelState) : PanelState :=
  match s.localStream with
  | none => s
  | some _ =>
    { s with localStream := some { enabled := !s.autoMuted && (!s.manualMuted || s.pushActive) } }

/-- The render effect on `[isOnline, manualMuted, autoMuted, pushActive]`:
returns early unless online, otherwise reapplies `applyTrackState`. -/
def trackEffect (s : PanelState) : PanelState :=
  if s.voiceStatus = VoiceStatus.online then applyTrackState s else s

/-- Overwrite the three local mute flags (the `setManualMuted` /
`setAutoMuted` / `setPushActive` state setters, taken together so the
track-enablement rule can be checked on all 8 flag combinations). -/
def setFlags (s : PanelState) (manual auto push : Bool) : PanelState :=
  { s with manualMuted := manual, autoMuted := auto, pushActive := push }

/-- `startVoice`: guarded by `canJoin` and `voiceStatus === "idle"`;
requests the microphone (success/failure given by the `micOk` oracle);
on success the captured track starts disabled, flags reset, status goes
`online` and `voice:ready` is emitted; on failure a user-visible error is
set and status returns to `idle`. -/
def startVoice (s : PanelState) (micOk : Bool) : PanelState × List Effect :=
  if canJoin s = false then
    ({ s with voiceError := some "Connect to the room and start the match to enable voice chat" }, [])
  else if s.voiceStatus ≠ VoiceStatus.idle then
    (s, [])
  else
    let s1 := { s with voiceError := none, infoMessage := none, voiceStatus := VoiceStatus.starting }
    if micOk then
      ({ s1 with
          localStream := some { enabled := false },
          manualMuted := true, autoMuted := false, pushActive := false,
          voiceStatus := VoiceStatus.online,
          infoMessage := some "Voice chat enabled — hold Push to Talk or unmute" },
       [Effect.captureMic, Effect.emit SocketEvent.voiceReady])
    else
      ({ s1 with
          voiceError := some "Microphone access denied. Please allow audio permissions.",
          voiceStatus := VoiceStatus.idle },
       [Effect.captureMic])

/-- `stopVoice(reason?)`: close every peer connection and clear the table,
stop and clear every remote stream, stop and release the local stream,
emit `voice:leave` when a socket is present, reset status and flags, and
set the info message for the `"match_inactive"` reason. -/
def stopVoice (s : PanelState) (reason : Option String) : PanelState × List Effect :=
  let closeEffs := s.peers.map (fun e => Effect.closeConnection e.1)
  let remoteEffs := s.remoteStreams.map (fun id => Effect.stopRemoteStream id)
  let localEffs := match s.localStream with
    | some _ => [Effect.stopLocalTrack]
    | none => []
  let emitEffs := if s.socket then [Effect.emit SocketEvent.voiceLeave] else []
  ({ s with
      peers := [], remoteStreams := [], localStream := none,
      voiceStatus := VoiceStatus.idle,
      manualMuted := true, autoMuted := false, pushActive := false,
      infoMessage :=
        if reason = some "match_inactive" then
          some "Voice unavailable until the next match starts"
        else s.infoMessage },
   closeEffs ++ remoteEffs ++ localEffs ++ emitEffs)

/-- `updateParticipantList`: replace the first entry with a matching
`playerId` in place, or append the update when absent. -/
def updateParticipantList : List Participant → Participant → List Participant
  | [], update => [update]
  | p :: rest, update =>
    if p.playerId = update.playerId then update :: rest
    else p :: updateParticipantList rest update

/-- The `voice:status` handler: patch the roster entry, and when the
payload is about the local player, overwrite the three local flags with
the payload values (no status guard). -/
def handleStatus (s : PanelState) (payload : Participant) : PanelState :=
  let s0 := { s with participants := updateParticipantList s.participants payload }
  if s.selfPlayerId = some payload.playerId then
    { s0 with
        manualMuted := payload.isMuted,
        autoMuted := payload.isAutoMuted,
        pushActive := payload.pushToTalkPressed }
  else s0

/-- `roster.filter(p => p.playerId !== selfPlayerId).map(p => p.playerId)`. -/
def rosterIdsExcept (selfId : String) : List Participant → List String
  | [] => []
  | p :: rest =>
    if p.playerId = selfId then rosterIdsExcept selfId rest
    else p.playerId :: rosterIdsExcept selfId rest

/-- First-occurrence deduplication, as performed by `new Set(...)`
(insertion order, duplicates dropped). -/
def dedupFirstAux (seen : List String) : List String → List String
  | [] => []
  | x :: rest =>
    if memb x seen then dedupFirstAux seen rest
    else x :: dedupFirstAux (x :: seen) rest

/-- The id list of `new Set(current.filter(...).map(...))`. -/
def activeIdsOf (selfId : String) (roster : List Participant) : List String :=
  dedupFirstAux [] (rosterIdsExcept selfId roster)

/-- The removal pass of `syncPeerConnections`: for every stored record
whose id is not active, close its connection, drop the record, and if a
remote stream is registered for that id, stop it and drop it from the
remote-stream table. -/
def removePass (activeIds : List String) :
    List (String × PeerRecord) → List String →
    List (String × PeerRecord) × List String × List Effect
  | [], remotes => ([], remotes, [])
  | e :: rest, remotes =>
    if memb e.1 activeIds then
      let r := removePass activeIds rest remotes
      (e :: r.1, r.2.1, r.2.2)
    else if memb e.1 remotes then
      let r := removePass activeIds rest (remotes.filter (fun x => decide (x ≠ e.1)))
      (r.1, r.2.1, Effect.closeConnection e.1 :: Effect.stopRemoteStream e.1 :: r.2.2)
    else
      let r := removePass activeIds rest remotes
      (r.1, r.2.1, Effect.closeConnection e.1 :: r.2.2)

/-- `ensurePeerConnection`: return the existing record unchanged; throw
`"Local stream missing"` when a record must be created but no local
stream exists; otherwise create a fresh, un-negotiated record (signaling
state `stable`), attach the local track, and store it under the id. -/
def ensurePeerConnection (localStream : Option LocalStream)
    (peers : List (String × PeerRecord)) (targetPlayerId : String) :
    Except String (PeerRecord × List (String × PeerRecord) × List Effect) :=
  match findPeer peers targetPlayerId with
  | some existing => Except.ok (existing, peers, [])
  | none =>
    match localStream with
    | none => Except.error "Local stream missing"
    | some _ =>
      let record : PeerRecord :=
        { targetPlayerId := targetPlayerId, negotiated := false,
          signaling := SignalingState.stable }
      Except.ok (record, setPeer peers targetPlayerId record,
        [Effect.createConnection targetPlayerId])

/-- The offer pass of `syncPeerConnections`: for each active id, ensure a
record exists; when its signaling state is `stable` and it is not yet
negotiated, create an offer, set the local description (state becomes
`have-local-offer`), emit `voice:offer`, and mark it negotiated. -/
def offerLoop (localStream : Option LocalStream) :
    List String → List (String × PeerRecord) →
    Except String (List (String × PeerRecord) × List Effect)
  | [], peers => Except.ok (peers, [])
  | id :: rest, peers =>
    match ensurePeerConnection localStream peers id with
    | Except.error e => Except.error e
    | Except.ok (peer, peers1, effs1) =>
      if peer.signaling = SignalingState.stable ∧ peer.negotiated = false then
        let peer' := { peer with
          negotiated := true
          signaling := SignalingState.haveLocalOffer }
        match offerLoop localStream rest (setPeer peers1 id peer') with
        | Except.error e => Except.error e
        | Except.ok (peers2, effs2) =>
          Except.ok (peers2, effs1 ++ [Effect.emit (SocketEvent.voiceOffer id)] ++ effs2)
      else
        match offerLoop localStream rest peers1 with
        | Except.error e => Except.error e
        | Except.ok (peers2, effs2) => Except.ok (peers2, effs1 ++ effs2)

/-- `syncPeerConnections(current)`: return early unless a socket, a local
stream and the local id are all present; compute the active id set; run
the removal pass over the stored records; then run the offer pass over
the active ids. -/
def syncPeerConnections (s : PanelState) (current : List Participant) :
    Except String (PanelState × List Effect) :=
  match s.socket, s.localStream, s.selfPlayerId with
  | true, some ls, some selfId =>
    let activeIds := activeIdsOf selfId current
    let rec1 := removePass activeIds s.peers s.remoteStreams
    match offerLoop (some ls) activeIds rec1.1 with
    | Except.error e => Except.error e
    | Except.ok (peers2, effs2) =>
      Except.ok ({ s with peers := peers2, remoteStreams := rec1.2.1 }, rec1.2.2 ++ effs2)
  | _, _, _ => Except.ok (s, [])

/-- The `voice:participants` handler: store the roster snapshot, return
early when the local id is unknown, otherwise reconcile. -/
def handleParticipants (s : PanelState) (payload : List Participant) :
    Except String (PanelState × List Effect) :=
  let s0 := { s with participants := payload }
  match s.selfPlayerId with
  | none => Except.ok (s0, [])
  | some _ => syncPeerConnections s0 payload

/-- The `voice:offer` handler: return early when the local id, the socket
or the local stream is missing; otherwise ensure a record for the sender,
set the remote description, create and set an answer (signaling returns
to `stable`), emit `voice:answer`, and mark the record negotiated. -/
def handleOffer (s : PanelState) (fromPlayerId : String) :
    Except String (PanelState × List Effect) :=
  match s.selfPlayerId, s.socket, s.localStream with
  | some _, true, some _ =>
    match ensurePeerConnection s.localStream s.peers fromPlayerId with
    | Except.error e => Except.error e
    | Except.ok (peer, peers1, effs1) =>
      let peer' := { peer with negotiated := true, signaling := SignalingState.stable }
      Except.ok ({ s with peers := setPeer peers1 fromPlayerId peer' },
        effs1 ++ [Effect.emit (SocketEvent.voiceAnswer fromPlayerId)])
  | _, _, _ => Except.ok (s, [])

/-- The `voice:answer` handler: drop silently when no record exists;
otherwise apply the remote description (signaling returns to `stable`)
and mark the record negotiated. -/
def handleAnswer (s : PanelState) (fromPlayerId : String) : PanelState :=
  match findPeer s.peers fromPlayerId with
  | none => s
  | some peer =>
    let peer' := { peer with
      negotiated := true
      signaling := SignalingState.stable }
    { s with peers := setPeer s.peers fromPlayerId peer' }

/-- The `voice:inactive` handler: set the availability error, clear the
info message, and when the session is not idle run
`stopVoice("match_inactive")`. -/
def handleInactive (s : PanelState) : PanelState × List Effect :=
  let s0 := { s with
      voiceError := some "Voice chat is available only during an active match",
      infoMessage := none }
  if s.voiceStatus ≠ VoiceStatus.idle then
    stopVoice s0 (some "match_inactive")
  else (s0, [])

/-- The `voice:shutdown` handler: `stopVoice(reason)` then set the
closed-channel info message. -/
def handleShutdown (s : PanelState) (reason : String) : PanelState × List Effect :=
  let r := stopVoice s (some reason)
  ({ r.1 with infoMessage := some "Voice channel closed — match completed" }, r.2)

/-- The effect on `[socket]`: when the socket prop becomes null, run
`stopVoice()` unconditionally. -/
def socketLossEffect (s : PanelState) : PanelState × List Effect :=
  if s.socket = false then stopVoice s none else (s, [])

/-- The effect on `[shouldForceDisconnect, voiceStatus]`: when the force
signal is set and the session is not idle, run
`stopVoice("match_complete")` and set the disconnect info message. -/
def forceDisconnectEffect (s : PanelState) : PanelState × List Effect :=
  if s.shouldForceDisconnect = true ∧ s.voiceStatus ≠ VoiceStatus.idle then
    let r := stopVoice s (some "match_complete")
    ({ r.1 with infoMessage := some "Voice chat disconnected — match ended" }, r.2)
  else (s, [])

/-- One settling round of the two prop-driven teardown effects. -/
def propEffects (s : PanelState) : PanelState × List Effect :=
  let r1 := socketLossEffect s
  let r2 := forceDisconnectEffect r1.1
  (r2.1, r1.2 ++ r2.2)

/-- What can run at an await suspension point inside the offer loop of
`syncPeerConnections`: nothing, or a teardown — `stopVoice(reason)` as
triggered by the Leave button, `voice:inactive`, `voice:shutdown` or the
socket-null effect (`stopVoice` is the only code that mutates
`localStreamRef`/`peersRef` outside the loop itself). -/
inductive Interleave
  | none
  | stop (reason : Option String)
deriving DecidableEq, Repr

/-- Run one scheduled interleaving on the shared panel state. -/
def runInterleave : Interleave → PanelState → PanelState × List Effect
  | Interleave.none, s => (s, [])
  | Interleave.stop reason, s => stopVoice s reason

/-- The offer pass of `syncPeerConnections` with the await points of the
source made explicit.  Each iteration re-reads the shared state
(`localStreamRef`, `peersRef`), as the source does after resuming; the
schedule supplies what runs during the `createOffer` /
`setLocalDescription` suspensions of each offer attempt (an exhausted
schedule means nothing intervenes at the remaining suspensions).  After
resuming, the source emits the offer and sets `negotiated` on the record
object captured before the suspension; that mutation is visible in the
peer table only while the table still holds the id — `stopVoice`, the
only possible interleaving, clears the table and never re-adds, so a
cleared entry leaves the mutation on an orphaned object. -/
def offerLoopAsync : List String → List Interleave → PanelState →
    Except String (PanelState × List Effect)
  | [], _, s => Except.ok (s, [])
  | id :: rest, sched, s =>
    match ensurePeerConnection s.localStream s.peers id with
    | Except.error e => Except.error e
    | Except.ok (peer, peers1, effs1) =>
      let s1 := { s with peers := peers1 }
      if peer.signaling = SignalingState.stable ∧ peer.negotiated = false then
        let r2 := runInterleave (sched.headD Interleave.none) s1
        let peer' := { peer with
          negotiated := true
          signaling := SignalingState.haveLocalOffer }
        let s3 :=
          if hasKey r2.1.peers id then { r2.1 with peers := setPeer r2.1.peers id peer' }
          else r2.1
        match offerLoopAsync rest sched.tail s3 with
        | Except.error e => Except.error e
        | Except.ok (s4, effs4) =>
          Except.ok (s4,
            effs1 ++ r2.2 ++ [Effect.emit (SocketEvent.voiceOffer id)] ++ effs4)
      else
        match offerLoopAsync rest sched s1 with
        | Except.error e => Except.error e
        | Except.ok (s4, effs4) => Except.ok (s4, effs1 ++ effs4)

/-- `syncPeerConnections` with the offer loop's suspensions visible: the
entry guard and the removal pass run in one synchronous slice (the
source has no await before the offer loop), then `offerLoopAsync` takes
over with the interleave schedule.  An empty schedule is an
uninterrupted run and coincides with the atomic `syncPeerConnections`
behaviour. -/
def syncPeerConnectionsAsync (s : PanelState) (current : List Participant)
    (sched : List Interleave) : Except String (PanelState × List Effect) :=
  match s.socket, s.localStream, s.selfPlayerId with
  | true, some _, some selfId =>
    let activeIds := activeIdsOf selfId current
    let rec1 := removePass activeIds s.peers s.remoteStreams
    match offerLoopAsync activeIds sched
        { s with peers := rec1.1, remoteStreams := rec1.2.1 } with
    | Except.error e => Except.error e
    | Except.ok (s2, effs2) => Except.ok (s2, rec1.2.2 ++ effs2)
  | _, _, _ => Except.ok (s, [])

/-! ## Helper lemmas -/

theorem memb_iff (id : String) (l : List String) : memb id l = true ↔ id ∈ l := by
  induction l with
  | nil => simp [memb]
  | cons x rest ih =>
    by_cases h : x = id
    · subst h; simp [memb]
    · rw [memb, if_neg h, ih]
      simp [List.mem_cons, Ne.symm h]

theorem findPeer_setPeer_self (ps : List (String × PeerRecord)) (id : String)
    (r : PeerRecord) : findPeer (setPeer ps id r) id = some r := by
  induction ps with
  | nil => simp [setPeer, findPeer]
  | cons e rest ih =>
    by_cases h : e.1 = id
    · simp [setPeer, h, findPeer]
    · simp [setPeer, h, findPeer, ih]

theorem findPeer_setPeer_ne (ps : List (String × PeerRecord)) (id id' : String)
    (r : PeerRecord) (h : id' ≠ id) :
    findPeer (setPeer ps id r) id' = findPeer ps id' := by
  induction ps with
  | nil => simp [setPeer, findPeer, Ne.symm h]
  | cons e rest ih =>
    by_cases he : e.1 = id
    · have h1 : ¬(id = id') := fun hh => h hh.symm
      have h2 : ¬(e.1 = id') := by rw [he]; exact h1
      simp only [setPeer, findPeer, if_pos he, if_neg h1, if_neg h2]
    · by_cases he' : e.1 = id'
      · simp only [setPeer, findPeer, if_neg he, if_pos he']
      · simp only [setPeer, findPeer, if_neg he, if_neg he']
        exact ih

theorem hasKey_of_mem {ps : List (String × PeerRecord)} {e : String × PeerRecord}
    (h : e ∈ ps) : hasKey ps e.1 = true := by
  induction ps with
  | nil => simp at h
  | cons x rest ih =>
    rcases List.mem_cons.mp h with h1 | h2
    · subst h1; simp [hasKey, findPeer]
    · by_cases hx : x.1 = e.1
      · simp [hasKey, findPeer, hx]
      · simpa [hasKey, findPeer, hx] using ih h2

theorem dedupFirstAux_mem (x : String) (seen l : List String) :
    x ∈ dedupFirstAux seen l ↔ x ∈ l ∧ memb x seen = false := by
  induction l generalizing seen with
  | nil => simp [dedupFirstAux]
  | cons y rest ih =>
    by_cases hy : memb y seen = true
    · rw [dedupFirstAux, if_pos hy, ih]
      by_cases hxy : x = y
      · subst hxy; simp [hy]
      · simp [List.mem_cons, hxy]
    · rw [dedupFirstAux, if_neg hy]
      by_cases hxy : x = y
      · subst hxy
        simp only [Bool.not_eq_true] at hy
        simp [List.mem_cons, hy]
      · rw [List.mem_cons, List.mem_cons]
        rw [ih (y :: seen)]
        have : memb x (y :: seen) = memb x seen := by
          rw [memb, if_neg (Ne.symm hxy)]
        rw [this]
        simp [hxy]

theorem rosterIdsExcept_mem (selfId id : String) (roster : List Participant) :
    id ∈ rosterIdsExcept selfId roster ↔
      id ≠ selfId ∧ ∃ p ∈ roster, p.playerId = id := by
  induction roster with
  | nil => simp [rosterIdsExcept]
  | cons p rest ih =>
    by_cases hp : p.playerId = selfId
    · rw [rosterIdsExcept, if_pos hp, ih]
      constructor
      · rintro ⟨hne, q, hq, hqid⟩
        exact ⟨hne, q, List.mem_cons_of_mem _ hq, hqid⟩
      · rintro ⟨hne, q, hq, hqid⟩
        rcases List.mem_cons.mp hq with h1 | h2
        · subst h1; exact absurd (hqid ▸ hp) hne
        · exact ⟨hne, q, h2, hqid⟩
    · rw [rosterIdsExcept, if_neg hp, List.mem_cons, ih]
      constructor
      · rintro (h1 | ⟨hne, q, hq, hqid⟩)
        · subst h1; exact ⟨hp, p, List.mem_cons_self _ _, rfl⟩
        · exact ⟨hne, q, List.mem_cons_of_mem _ hq, hqid⟩
      · rintro ⟨hne, q, hq, hqid⟩
        rcases List.mem_cons.mp hq with h1 | h2
        · subst h1; exact Or.inl hqid.symm
        · exact Or.inr ⟨hne, q, h2, hqid⟩

theorem activeIdsOf_mem (selfId id : String) (roster : List Participant) :
    id ∈ activeIdsOf selfId roster ↔
      id ≠ selfId ∧ ∃ p ∈ roster, p.playerId = id := by
  rw [activeIdsOf, dedupFirstAux_mem, rosterIdsExcept_mem]
  simp [memb]

theorem removePass_peers (a : List String) (ps : List (String × PeerRecord)) (rs : List String) :
    (removePass a ps rs).1 = ps.filter (fun e => memb e.1 a) := by
  induction ps generalizing rs with
  | nil => simp [removePass]
  | cons e rest ih =>
    by_cases h : memb e.1 a = true
    · simp [removePass, h, List.filter_cons, ih rs]
    · by_cases h2 : memb e.1 rs = true
      · simp [removePass, h, h2, List.filter_cons, ih]
      · simp [removePass, h, h2, List.filter_cons, ih]

theorem removePass_remotes_subset (a : List String) (ps : List (String × PeerRecord)) :
    ∀ rs x, x ∈ (removePass a ps rs).2.1 → x ∈ rs := by
  induction ps with
  | nil =>
    intro rs x hx
    simpa [removePass] using hx
  | cons e rest ih =>
    intro rs x hx
    by_cases h : memb e.1 a = true
    · simp only [removePass, if_pos h] at hx
      exact ih rs x hx
    · by_cases h2 : memb e.1 rs = true
      · simp only [removePass, if_neg h, if_pos h2] at hx
        exact List.mem_of_mem_filter (ih _ x hx)
      · simp only [removePass, if_neg h, if_neg h2] at hx
        exact ih rs x hx

theorem removePass_remote_removed (a : List String) (ps : List (String × PeerRecord)) :
    ∀ rs id, hasKey ps id = true → memb id a = false →
      id ∉ (removePass a ps rs).2.1 := by
  induction ps with
  | nil =>
    intro rs id hk
    simp [hasKey, findPeer] at hk
  | cons e rest ih =>
    intro rs id hk hm
    by_cases he : e.1 = id
    · have hna : ¬(memb e.1 a = true) := by rw [he, hm]; simp
      by_cases h2 : memb e.1 rs = true
      · simp only [removePass, if_neg hna, if_pos h2]
        intro hmem
        have hin := removePass_remotes_subset a rest _ id hmem
        rw [List.mem_filter] at hin
        have : id ≠ e.1 := of_decide_eq_true hin.2
        exact this he.symm
      · simp only [removePass, if_neg hna, if_neg h2]
        intro hmem
        have hin := removePass_remotes_subset a rest rs id hmem
        rw [← memb_iff] at hin
        rw [he] at h2
        exact h2 hin
    · have hk' : hasKey rest id = true := by
        simpa [hasKey, findPeer, he] using hk
      by_cases h : memb e.1 a = true
      · simp only [removePass, if_pos h]
        exact ih rs id hk' hm
      · by_cases h2 : memb e.1 rs = true
        · simp only [removePass, if_neg h, if_pos h2]
          exact ih _ id hk' hm
        · simp only [removePass, if_neg h, if_neg h2]
          exact ih rs id hk' hm

theorem removePass_close_eff (a : List String) (ps : List (String × PeerRecord)) :
    ∀ rs id, hasKey ps id = true → memb id a = false →
      Effect.closeConnection id ∈ (removePass a ps rs).2.2 := by
  induction ps with
  | nil =>
    intro rs id hk
    simp [hasKey, findPeer] at hk
  | cons e rest ih =>
    intro rs id hk hm
    by_cases he : e.1 = id
    · have hna : ¬(memb e.1 a = true) := by rw [he, hm]; simp
      by_cases h2 : memb e.1 rs = true
      · simp only [removePass, if_neg hna, if_pos h2]
        simp [he]
      · simp only [removePass, if_neg hna, if_neg h2]
        simp [he]
    · have hk' : hasKey rest id = true := by
        simpa [hasKey, findPeer, he] using hk
      by_cases h : memb e.1 a = true
      · simp only [removePass, if_pos h]
        exact ih rs id hk' hm
      · by_cases h2 : memb e.1 rs = true
        · simp only [removePass, if_neg h, if_pos h2]
          exact List.mem_cons_of_mem _ (List.mem_cons_of_mem _ (ih _ id hk' hm))
        · simp only [removePass, if_neg h, if_neg h2]
          exact List.mem_cons_of_mem _ (ih rs id hk' hm)

theorem removePass_stop_eff (a : List String) (ps : List (String × PeerRecord)) :
    ∀ rs id, hasKey ps id = true → memb id a = false → id ∈ rs →
      Effect.stopRemoteStream id ∈ (removePass a ps rs).2.2 := by
  induction ps with
  | nil =>
    intro rs id hk
    simp [hasKey, findPeer] at hk
  | cons e rest ih =>
    intro rs id hk hm hrs
    by_cases he : e.1 = id
    · have hna : ¬(memb e.1 a = true) := by rw [he, hm]; simp
      have h2 : memb e.1 rs = true := by
        rw [he, memb_iff]; exact hrs
      simp only [removePass, if_neg hna, if_pos h2]
      simp [he]
    · have hk' : hasKey rest id = true := by
        simpa [hasKey, findPeer, he] using hk
      by_cases h : memb e.1 a = true
      · simp only [removePass, if_pos h]
        exact ih rs id hk' hm hrs
      · by_cases h2 : memb e.1 rs = true
        · simp only [removePass, if_neg h, if_pos h2]
          refine List.mem_cons_of_mem _ (List.mem_cons_of_mem _ (ih _ id hk' hm ?_))
          rw [List.mem_filter]
          exact ⟨hrs, decide_eq_true (Ne.symm he)⟩
        · simp only [removePass, if_neg h, if_neg h2]
          exact List.mem_cons_of_mem _ (ih rs id hk' hm hrs)

theorem removePass_noop (a : List String) (ps : List (String × PeerRecord)) (rs : List String)
    (h : ∀ e ∈ ps, memb e.1 a = true) : removePass a ps rs = (ps, rs, []) := by
  induction ps with
  | nil => simp [removePass]
  | cons e rest ih =>
    have he : memb e.1 a = true := h e (List.mem_cons_self _ _)
    have ih' := ih (fun e' he' => h e' (List.mem_cons_of_mem _ he'))
    simp [removePass, he, ih']

theorem memb_head (id : String) (rest : List String) : memb id (id :: rest) = true := by
  rw [memb]; simp

theorem memb_cons_of (x id : String) (rest : List String) (h : memb id rest = true) :
    memb id (x :: rest) = true := by
  by_cases hx : x = id
  · rw [memb, if_pos hx]
  · rw [memb, if_neg hx]; exact h

/-- A freshly created peer record, as `ensurePeerConnection` stores it. -/
def freshRecord (id : String) : PeerRecord :=
  { targetPlayerId := id, negotiated := false, signaling := SignalingState.stable }

/-- A record after the offer pass negotiated it. -/
def offeredRecord (r : PeerRecord) : PeerRecord :=
  { r with negotiated := true, signaling := SignalingState.haveLocalOffer }

theorem ensure_found (ls : Option LocalStream) (ps : List (String × PeerRecord))
    (id : String) (r : PeerRecord) (hf : findPeer ps id = some r) :
    ensurePeerConnection ls ps id = Except.ok (r, ps, []) := by
  simp [ensurePeerConnection, hf]

theorem ensure_fresh (ls : LocalStream) (ps : List (String × PeerRecord))
    (id : String) (hf : findPeer ps id = none) :
    ensurePeerConnection (some ls) ps id =
      Except.ok (freshRecord id, setPeer ps id (freshRecord id),
        [Effect.createConnection id]) := by
  simp [ensurePeerConnection, hf, freshRecord]

theorem offerLoop_cons_found_stale (ls : LocalStream) (hd : String) (rest : List String)
    (ps : List (String × PeerRecord)) (r : PeerRecord)
    (hf : findPeer ps hd = some r)
    (hc : ¬(r.signaling = SignalingState.stable ∧ r.negotiated = false)) :
    offerLoop (some ls) (hd :: rest) ps =
      (match offerLoop (some ls) rest ps with
       | Except.error e => Except.error e
       | Except.ok (peers2, effs2) => Except.ok (peers2, effs2)) := by
  cases hrec : offerLoop (some ls) rest ps with
  | error e => simp [offerLoop, ensurePeerConnection, hf, hc, hrec]
  | ok out =>
    obtain ⟨peers2, effs2⟩ := out
    simp [offerLoop, ensurePeerConnection, hf, hc, hrec]

theorem offerLoop_cons_found_fresh (ls : LocalStream) (hd : String) (rest : List String)
    (ps : List (String × PeerRecord)) (r : PeerRecord)
    (hf : findPeer ps hd = some r)
    (hc : r.signaling = SignalingState.stable ∧ r.negotiated = false) :
    offerLoop (some ls) (hd :: rest) ps =
      (match offerLoop (some ls) rest (setPeer ps hd (offeredRecord r)) with
       | Except.error e => Except.error e
       | Except.ok (peers2, effs2) =>
         Except.ok (peers2, Effect.emit (SocketEvent.voiceOffer hd) :: effs2)) := by
  cases hrec : offerLoop (some ls) rest (setPeer ps hd (offeredRecord r)) with
  | error e =>
    rw [offerLoop, ensure_found _ _ _ _ hf]
    simp only [offeredRecord] at hrec
    simp [hc.1, hc.2, hrec, offeredRecord]
  | ok out =>
    obtain ⟨peers2, effs2⟩ := out
    rw [offerLoop, ensure_found _ _ _ _ hf]
    simp only [offeredRecord] at hrec
    simp [hc.1, hc.2, hrec, offeredRecord]

theorem offerLoop_cons_new (ls : LocalStream) (hd : String) (rest : List String)
    (ps : List (String × PeerRecord))
    (hf : findPeer ps hd = none) :
    offerLoop (some ls) (hd :: rest) ps =
      (match offerLoop (some ls) rest
          (setPeer (setPeer ps hd (freshRecord hd)) hd (offeredRecord (freshRecord hd))) with
       | Except.error e => Except.error e
       | Except.ok (peers2, effs2) =>
         Except.ok (peers2, Effect.createConnection hd ::
           Effect.emit (SocketEvent.voiceOffer hd) :: effs2)) := by
  cases hrec : offerLoop (some ls) rest
      (setPeer (setPeer ps hd (freshRecord hd)) hd (offeredRecord (freshRecord hd))) with
  | error e =>
    rw [offerLoop, ensure_fresh _ _ _ hf]
    simp only [offeredRecord, freshRecord] at hrec
    simp [freshRecord, offeredRecord, hrec]
  | ok out =>
    obtain ⟨peers2, effs2⟩ := out
    rw [offerLoop, ensure_fresh _ _ _ hf]
    simp only [offeredRecord, freshRecord] at hrec
    simp [freshRecord, offeredRecord, hrec]

theorem offerLoop_ok (ls : LocalStream) (ids : List String) :
    ∀ ps, ∃ out, offerLoop (some ls) ids ps = Except.ok out := by
  induction ids with
  | nil => intro ps; exact ⟨(ps, []), rfl⟩
  | cons hd rest ih =>
    intro ps
    cases hf : findPeer ps hd with
    | some r =>
      by_cases hc : r.signaling = SignalingState.stable ∧ r.negotiated = false
      · rw [offerLoop_cons_found_fresh ls hd rest ps r hf hc]
        obtain ⟨⟨ps2, effs2⟩, hout⟩ := ih (setPeer ps hd (offeredRecord r))
        rw [hout]
        exact ⟨_, rfl⟩
      · rw [offerLoop_cons_found_stale ls hd rest ps r hf hc]
        obtain ⟨⟨ps2, effs2⟩, hout⟩ := ih ps
        rw [hout]
        exact ⟨_, rfl⟩
    | none =>
      rw [offerLoop_cons_new ls hd rest ps hf]
      obtain ⟨⟨ps2, effs2⟩, hout⟩ :=
        ih (setPeer (setPeer ps hd (freshRecord hd)) hd (offeredRecord (freshRecord hd)))
      rw [hout]
      exact ⟨_, rfl⟩

theorem offerLoop_hasKey (ls : LocalStream) (ids : List String) :
    ∀ ps ps' effs, offerLoop (some ls) ids ps = Except.ok (ps', effs) →
      ∀ id, hasKey ps' id = (hasKey ps id || memb id ids) := by
  induction ids with
  | nil =>
    intro ps ps' effs h id
    simp only [offerLoop, Except.ok.injEq, Prod.mk.injEq] at h
    obtain ⟨h1, h2⟩ := h
    subst h1
    simp [memb]
  | cons hd rest ih =>
    intro ps ps' effs h id
    cases hf : findPeer ps hd with
    | some r =>
      by_cases hc : r.signaling = SignalingState.stable ∧ r.negotiated = false
      · rw [offerLoop_cons_found_fresh ls hd rest ps r hf hc] at h
        cases hrec : offerLoop (some ls) rest (setPeer ps hd (offeredRecord r)) with
        | error e => rw [hrec] at h; cases h
        | ok out =>
          obtain ⟨ps2, effs2⟩ := out
          rw [hrec] at h
          simp only [Except.ok.injEq, Prod.mk.injEq] at h
          obtain ⟨h1, h2⟩ := h
          subst h1
          rw [ih _ ps2 effs2 hrec id]
          by_cases hid : hd = id
          · subst hid
            simp [hasKey, findPeer_setPeer_self, hf, memb_head]
          · simp only [hasKey, findPeer_setPeer_ne _ _ _ _ (Ne.symm hid), memb, if_neg hid]
      · rw [offerLoop_cons_found_stale ls hd rest ps r hf hc] at h
        cases hrec : offerLoop (some ls) rest ps with
        | error e => rw [hrec] at h; cases h
        | ok out =>
          obtain ⟨ps2, effs2⟩ := out
          rw [hrec] at h
          simp only [Except.ok.injEq, Prod.mk.injEq] at h
          obtain ⟨h1, h2⟩ := h
          subst h1
          rw [ih ps ps2 effs2 hrec id]
          by_cases hid : hd = id
          · subst hid
            simp [hasKey, hf, memb_head]
          · rw [memb, if_neg hid]
    | none =>
      rw [offerLoop_cons_new ls hd rest ps hf] at h
      cases hrec : offerLoop (some ls) rest
          (setPeer (setPeer ps hd (freshRecord hd)) hd (offeredRecord (freshRecord hd))) with
      | error e => rw [hrec] at h; cases h
      | ok out =>
        obtain ⟨ps2, effs2⟩ := out
        rw [hrec] at h
        simp only [Except.ok.injEq, Prod.mk.injEq] at h
        obtain ⟨h1, h2⟩ := h
        subst h1
        rw [ih _ ps2 effs2 hrec id]
        by_cases hid : hd = id
        · subst hid
          simp [hasKey, findPeer_setPeer_self, hf, memb_head]
        · simp only [hasKey, findPeer_setPeer_ne _ _ _ _ (Ne.symm hid), memb, if_neg hid]

theorem offerLoop_preserve (ls : LocalStream) (ids : List String) :
    ∀ ps ps' effs, offerLoop (some ls) ids ps = Except.ok (ps', effs) →
      ∀ id r, findPeer ps id = some r →
        (r.negotiated = true ∨ r.signaling ≠ SignalingState.stable) →
        findPeer ps' id = some r := by
  induction ids with
  | nil =>
    intro ps ps' effs h id r hfind hP
    simp only [offerLoop, Except.ok.injEq, Prod.mk.injEq] at h
    obtain ⟨h1, h2⟩ := h
    subst h1
    exact hfind
  | cons hd rest ih =>
    intro ps ps' effs h id r hfind hP
    cases hf : findPeer ps hd with
    | some rh =>
      by_cases hc : rh.signaling = SignalingState.stable ∧ rh.negotiated = false
      · rw [offerLoop_cons_found_fresh ls hd rest ps rh hf hc] at h
        cases hrec : offerLoop (some ls) rest (setPeer ps hd (offeredRecord rh)) with
        | error e => rw [hrec] at h; cases h
        | ok out =>
          obtain ⟨ps2, effs2⟩ := out
          rw [hrec] at h
          simp only [Except.ok.injEq, Prod.mk.injEq] at h
          obtain ⟨h1, h2⟩ := h
          subst h1
          have hid : id ≠ hd := by
            intro hh
            subst hh
            rw [hfind] at hf
            have hre : r = rh := Option.some.inj hf
            subst hre
            rcases hP with h1 | h1
            · have hfalse := hc.2
              rw [h1] at hfalse
              exact Bool.noConfusion hfalse
            · exact h1 hc.1
          have hfind' : findPeer (setPeer ps hd (offeredRecord rh)) id = some r := by
            rw [findPeer_setPeer_ne _ _ _ _ hid]
            exact hfind
          exact ih _ ps2 effs2 hrec id r hfind' hP
      · rw [offerLoop_cons_found_stale ls hd rest ps rh hf hc] at h
        cases hrec : offerLoop (some ls) rest ps with
        | error e => rw [hrec] at h; cases h
        | ok out =>
          obtain ⟨ps2, effs2⟩ := out
          rw [hrec] at h
          simp only [Except.ok.injEq, Prod.mk.injEq] at h
          obtain ⟨h1, h2⟩ := h
          subst h1
          exact ih ps ps2 effs2 hrec id r hfind hP
    | none =>
      rw [offerLoop_cons_new ls hd rest ps hf] at h
      cases hrec : offerLoop (some ls) rest
          (setPeer (setPeer ps hd (freshRecord hd)) hd (offeredRecord (freshRecord hd))) with
      | error e => rw [hrec] at h; cases h
      | ok out =>
        obtain ⟨ps2, effs2⟩ := out
        rw [hrec] at h
        simp only [Except.ok.injEq, Prod.mk.injEq] at h
        obtain ⟨h1, h2⟩ := h
        subst h1
        have hid : id ≠ hd := by
          intro hh
          subst hh
          rw [hfind] at hf
          exact Option.noConfusion hf
        have hfind' : findPeer
            (setPeer (setPeer ps hd (freshRecord hd)) hd (offeredRecord (freshRecord hd))) id
              = some r := by
          rw [findPeer_setPeer_ne _ _ _ _ hid, findPeer_setPeer_ne _ _ _ _ hid]
          exact hfind
        exact ih _ ps2 effs2 hrec id r hfind' hP

theorem offerLoop_post (ls : LocalStream) (ids : List String) :
    ∀ ps ps' effs, offerLoop (some ls) ids ps = Except.ok (ps', effs) →
      ∀ id, memb id ids = true →
        ∃ r, findPeer ps' id = some r ∧
          (r.negotiated = true ∨ r.signaling ≠ SignalingState.stable) := by
  induction ids with
  | nil =>
    intro ps ps' effs h id hm
    simp [memb] at hm
  | cons hd rest ih =>
    intro ps ps' effs h id hm
    cases hf : findPeer ps hd with
    | some rh =>
      by_cases hc : rh.signaling = SignalingState.stable ∧ rh.negotiated = false
      · rw [offerLoop_cons_found_fresh ls hd rest ps rh hf hc] at h
        cases hrec : offerLoop (some ls) rest (setPeer ps hd (offeredRecord rh)) with
        | error e => rw [hrec] at h; cases h
        | ok out =>
          obtain ⟨ps2, effs2⟩ := out
          rw [hrec] at h
          simp only [Except.ok.injEq, Prod.mk.injEq] at h
          obtain ⟨h1, h2⟩ := h
          subst h1
          by_cases hid : hd = id
          · subst hid
            have hP' : (offeredRecord rh).negotiated = true ∨
                (offeredRecord rh).signaling ≠ SignalingState.stable := Or.inl rfl
            exact ⟨offeredRecord rh,
              offerLoop_preserve ls rest _ ps2 effs2 hrec hd (offeredRecord rh)
                (findPeer_setPeer_self ps hd (offeredRecord rh)) hP', hP'⟩
          · have hm' : memb id rest = true := by
              rw [memb, if_neg hid] at hm
              exact hm
            exact ih _ ps2 effs2 hrec id hm'
      · rw [offerLoop_cons_found_stale ls hd rest ps rh hf hc] at h
        cases hrec : offerLoop (some ls) rest ps with
        | error e => rw [hrec] at h; cases h
        | ok out =>
          obtain ⟨ps2, effs2⟩ := out
          rw [hrec] at h
          simp only [Except.ok.injEq, Prod.mk.injEq] at h
          obtain ⟨h1, h2⟩ := h
          subst h1
          by_cases hid : hd = id
          · subst hid
            have hP : rh.negotiated = true ∨ rh.signaling ≠ SignalingState.stable := by
              rcases not_and_or.mp hc with h1 | h1
              · exact Or.inr h1
              · cases hb : rh.negotiated with
                | false => exact absurd hb h1
                | true => exact Or.inl rfl
            exact ⟨rh, offerLoop_preserve ls rest ps ps2 effs2 hrec hd rh hf hP, hP⟩
          · have hm' : memb id rest = true := by
              rw [memb, if_neg hid] at hm
              exact hm
            exact ih ps ps2 effs2 hrec id hm'
    | none =>
      rw [offerLoop_cons_new ls hd rest ps hf] at h
      cases hrec : offerLoop (some ls) rest
          (setPeer (setPeer ps hd (freshRecord hd)) hd (offeredRecord (freshRecord hd))) with
      | error e => rw [hrec] at h; cases h
      | ok out =>
        obtain ⟨ps2, effs2⟩ := out
        rw [hrec] at h
        simp only [Except.ok.injEq, Prod.mk.injEq] at h
        obtain ⟨h1, h2⟩ := h
        subst h1
        by_cases hid : hd = id
        · subst hid
          have hP' : (offeredRecord (freshRecord hd)).negotiated = true ∨
              (offeredRecord (freshRecord hd)).signaling ≠ SignalingState.stable := Or.inl rfl
          exact ⟨offeredRecord (freshRecord hd),
            offerLoop_preserve ls rest _ ps2 effs2 hrec hd (offeredRecord (freshRecord hd))
              (findPeer_setPeer_self _ hd (offeredRecord (freshRecord hd))) hP', hP'⟩
        · have hm' : memb id rest = true := by
            rw [memb, if_neg hid] at hm
            exact hm
          exact ih _ ps2 effs2 hrec id hm'

theorem offerLoop_noop (ls : LocalStream) (ids : List String) :
    ∀ ps, (∀ id, memb id ids = true →
        ∃ r, findPeer ps id = some r ∧
          (r.negotiated = true ∨ r.signaling ≠ SignalingState.stable)) →
      offerLoop (some ls) ids ps = Except.ok (ps, []) := by
  induction ids with
  | nil => intro ps _; rfl
  | cons hd rest ih =>
    intro ps h
    obtain ⟨r, hf, hP⟩ := h hd (memb_head hd rest)
    have hc : ¬(r.signaling = SignalingState.stable ∧ r.negotiated = false) := by
      rcases hP with h1 | h1
      · intro hand
        have hfalse := hand.2
        rw [h1] at hfalse
        exact Bool.noConfusion hfalse
      · intro hand
        exact h1 hand.1
    rw [offerLoop_cons_found_stale ls hd rest ps r hf hc]
    rw [ih ps (fun id hid => h id (memb_cons_of hd id rest hid))]

theorem sync_unfold (s : PanelState) (ls : LocalStream) (selfId : String)
    (roster : List Participant)
    (hso : s.socket = true) (hls : s.localStream = some ls)
    (hself : s.selfPlayerId = some selfId) :
    syncPeerConnections s roster =
      (match offerLoop (some ls) (activeIdsOf selfId roster)
          (removePass (activeIdsOf selfId roster) s.peers s.remoteStreams).1 with
       | Except.error e => Except.error e
       | Except.ok (peers2, effs2) =>
         Except.ok
           ({ s with
              peers := peers2
              remoteStreams := (removePass (activeIdsOf selfId roster) s.peers s.remoteStreams).2.1 },
            (removePass (activeIdsOf selfId roster) s.peers s.remoteStreams).2.2 ++ effs2)) := by
  obtain ⟨so, rc, self, ic, ima, sfd, vs, mm, am, pa, parts, ve, im, lstr, prs, rst⟩ := s
  dsimp only at hso hls hself
  subst hso hls hself
  rfl

theorem sync_skip (s : PanelState) (roster : List Participant)
    (h : s.socket = false ∨ s.localStream = none ∨ s.selfPlayerId = none) :
    syncPeerConnections s roster = Except.ok (s, []) := by
  obtain ⟨so, rc, self, ic, ima, sfd, vs, mm, am, pa, parts, ve, im, lstr, prs, rst⟩ := s
  dsimp only at h
  rcases h with h | h | h
  · subst h; rfl
  · subst h
    cases so
    · rfl
    · rfl
  · subst h
    cases so
    · rfl
    · cases lstr
      · rfl
      · rfl

theorem findPeer_filter (a : List String) (ps : List (String × PeerRecord)) (id : String) :
    findPeer (ps.filter (fun e => memb e.1 a)) id =
      (if memb id a = true then findPeer ps id else none) := by
  induction ps with
  | nil => by_cases h : memb id a = true <;> simp [findPeer, h]
  | cons e rest ih =>
    by_cases ha : memb e.1 a = true
    · by_cases he : e.1 = id
      · have hia : memb id a = true := he ▸ ha
        simp [List.filter_cons, ha, findPeer, he, hia]
      · simp [List.filter_cons, ha, findPeer, he, ih]
    · by_cases he : e.1 = id
      · have hia : memb id a = false := by
          cases hm : memb id a
          · rfl
          · exact absurd (he ▸ hm) ha
        simp [List.filter_cons, ha, findPeer, he, ih, hia]
      · simp [List.filter_cons, ha, findPeer, he, ih]

theorem hasKey_filter_memb (a : List String) (ps : List (String × PeerRecord)) (id : String) :
    hasKey (ps.filter (fun e => memb e.1 a)) id = (hasKey ps id && memb id a) := by
  rw [hasKey, findPeer_filter, hasKey]
  cases h : memb id a
  · simp [h]
  · simp [h]

theorem sync_ok (s : PanelState) (roster : List Participant) :
    ∃ out, syncPeerConnections s roster = Except.ok out := by
  cases hso : s.socket with
  | false => exact ⟨(s, []), sync_skip s roster (Or.inl hso)⟩
  | true =>
    cases hls : s.localStream with
    | none => exact ⟨(s, []), sync_skip s roster (Or.inr (Or.inl hls))⟩
    | some ls =>
      cases hself : s.selfPlayerId with
      | none => exact ⟨(s, []), sync_skip s roster (Or.inr (Or.inr hself))⟩
      | some selfId =>
        rw [sync_unfold s ls selfId roster hso hls hself]
        obtain ⟨⟨ps2, effs2⟩, hout⟩ := offerLoop_ok ls (activeIdsOf selfId roster)
          (removePass (activeIdsOf selfId roster) s.peers s.remoteStreams).1
        rw [hout]
        exact ⟨_, rfl⟩

/-- Whether an `Except` computation finished without throwing. -/
def isOkE {α : Type} : Except String α → Bool
  | Except.ok _ => true
  | Except.error _ => false

theorem handleOffer_ok (s : PanelState) (fromId : String) :
    isOkE (handleOffer s fromId) = true := by
  obtain ⟨so, rc, self, ic, ima, sfd, vs, mm, am, pa, parts, ve, im, lstr, prs, rst⟩ := s
  cases self with
  | none => rfl
  | some selfId =>
    cases so
    · rfl
    · cases lstr with
      | none => rfl
      | some ls =>
        cases hf : findPeer prs fromId with
        | some r => simp [handleOffer, ensurePeerConnection, hf, isOkE]
        | none => simp [handleOffer, ensurePeerConnection, hf, isOkE]

/-! ## Concrete states used by the witnesses -/

/-- A concrete online session: local player "alice", one negotiated peer
"bob" with a live remote stream. -/
def sampleOnline : PanelState :=
  { socket := true
    roomCode := true
    selfPlayerId := some "alice"
    isConnected := true
    isMatchActive := true
    shouldForceDisconnect := false
    voiceStatus := VoiceStatus.online
    manualMuted := true
    autoMuted := false
    pushActive := false
    participants := []
    voiceError := none
    infoMessage := none
    localStream := some { enabled := false }
    peers := [("bob",
      { targetPlayerId := "bob", negotiated := true,
        signaling := SignalingState.haveLocalOffer })]
    remoteStreams := ["bob"] }

/-- A concrete idle session satisfying the join preconditions. -/
def sampleIdle : PanelState :=
  { sampleOnline with
    voiceStatus := VoiceStatus.idle
    localStream := none
    peers := []
    remoteStreams := [] }

/-- An online session whose join preconditions no longer hold (socket
gone, connection lost). -/
def reentrantNoJoin : PanelState :=
  { sampleOnline with
    socket := false
    isConnected := false }

/-! ## Claim theorems -/

/-- C1: while the session is online and a local stream exists, writing any
combination of the three mute flags and letting the render effect run
leaves the outbound track enabled exactly when
`!autoMuted && (!manualMuted || pushActive)`.  The flags `m a p` range
over all 8 combinations, and the arbitrary prior state `s` shows the rule
is reapplied after every flag change, not only at join time. -/
theorem claim1_track_enablement (s : PanelState) (ls : LocalStream) (m a p : Bool)
    (hon : s.voiceStatus = VoiceStatus.online) (hls : s.localStream = some ls) :
    (trackEffect (setFlags s m a p)).localStream =
      some { enabled := !a && (!m || p) } := by
  simp [trackEffect, setFlags, applyTrackState, hon, hls]

/-- Witness for C1 at a concrete online state with
`manualMuted = false, autoMuted = false, pushActive = true`. -/
theorem claim1_track_enablement_witness :
    (trackEffect (setFlags sampleOnline false false true)).localStream =
      some { enabled := !false && (!false || true) } :=
  claim1_track_enablement sampleOnline { enabled := false } false false true rfl rfl

/-- C3: `stopVoice` from any reachable state leaves zero peer records,
an empty remote-stream table, the local track released (with a stop
effect when one existed), status `idle`, and the default mute flags
(`manualMuted = true`, `autoMuted = false`, `pushActive = false`); it
emits `voice:leave` whenever a socket is present, closes every owned
connection, and is idempotent on the state (safe from idle). -/
theorem claim3_stopVoice_teardown (s : PanelState) (reason : Option String) :
    (stopVoice s reason).1.peers = [] ∧
    (stopVoice s reason).1.remoteStreams = [] ∧
    (stopVoice s reason).1.localStream = none ∧
    (stopVoice s reason).1.voiceStatus = VoiceStatus.idle ∧
    (stopVoice s reason).1.manualMuted = true ∧
    (stopVoice s reason).1.autoMuted = false ∧
    (stopVoice s reason).1.pushActive = false ∧
    (s.socket = true → Effect.emit SocketEvent.voiceLeave ∈ (stopVoice s reason).2) ∧
    (s.localStream.isSome = true → Effect.stopLocalTrack ∈ (stopVoice s reason).2) ∧
    (∀ e ∈ s.peers, Effect.closeConnection e.1 ∈ (stopVoice s reason).2) ∧
    (stopVoice (stopVoice s reason).1 reason).1 = (stopVoice s reason).1 := by
  refine ⟨rfl, rfl, rfl, rfl, rfl, rfl, rfl, ?_, ?_, ?_, ?_⟩
  · intro h
    simp [stopVoice, h]
  · intro h
    cases hls : s.localStream with
    | none => rw [hls] at h; simp at h
    | some ls => simp [stopVoice, hls]
  · intro e he
    simp only [stopVoice]
    apply List.mem_append_left
    apply List.mem_append_left
    apply List.mem_append_left
    exact List.mem_map_of_mem _ he
  · by_cases hr : reason = some "match_inactive" <;> simp [stopVoice, hr]

/-- Witness for C3 at the concrete online state. -/
theorem claim3_stopVoice_teardown_witness :
    (stopVoice sampleOnline (some "manual")).1.peers = [] ∧
    Effect.emit SocketEvent.voiceLeave ∈ (stopVoice sampleOnline (some "manual")).2 :=
  ⟨(claim3_stopVoice_teardown sampleOnline (some "manual")).1,
   (claim3_stopVoice_teardown sampleOnline (some "manual")).2.2.2.2.2.2.2.1 rfl⟩

/-- C5: the two prop-driven effects guarantee the session never stays
non-idle once the external teardown signals fire: when the socket prop is
gone (signaling channel disconnected) `stopVoice()` runs, and when
`shouldForceDisconnect` is set (the external signal that the match is no
longer active) `stopVoice("match_complete")` runs; after the effects
settle the status is `idle`, with no local user action involved. -/
theorem claim5_forced_teardown (s : PanelState)
    (h : s.socket = false ∨ s.shouldForceDisconnect = true) :
    (propEffects s).1.voiceStatus = VoiceStatus.idle := by
  rcases h with h | h
  · simp [propEffects, socketLossEffect, forceDisconnectEffect, stopVoice, h]
  · cases hso : s.socket with
    | false => simp [propEffects, socketLossEffect, forceDisconnectEffect, stopVoice, hso]
    | true =>
      by_cases hst : s.voiceStatus = VoiceStatus.idle
      · simp [propEffects, socketLossEffect, forceDisconnectEffect, hso, hst, h]
      · simp [propEffects, socketLossEffect, forceDisconnectEffect, stopVoice, hso, hst, h]

/-- Witness for C5: force-disconnect raised while online. -/
theorem claim5_forced_teardown_witness :
    (propEffects { sampleOnline with shouldForceDisconnect := true }).1.voiceStatus =
      VoiceStatus.idle :=
  claim5_forced_teardown { sampleOnline with shouldForceDisconnect := true } (Or.inr rfl)

/-- The state a blocked `startVoice` call leaves behind: only the
user-visible error slot is written. -/
def joinBlockedState (s : PanelState) : PanelState :=
  { s with
    voiceError := some "Connect to the room and start the match to enable voice chat" }

/-- C7 counterexample: at an online state whose join preconditions fail
(socket gone), `startVoice` is not a no-op — it writes the precondition
error message — refuting the claim that any call while not idle changes
nothing. -/
theorem claim7_counterexample :
    reentrantNoJoin.voiceStatus ≠ VoiceStatus.idle ∧
      (startVoice reentrantNoJoin true).1 ≠ reentrantNoJoin := by
  decide

/-- C7 (amended): when `startVoice` succeeds under its preconditions from
idle, the captured track starts disabled, the status becomes online and
`voice:ready` is emitted; a call while the status is not idle performs no
capture, emits nothing, and — when the join preconditions hold — changes
no state at all, while with failing preconditions it only writes the
user-visible error message. -/
theorem claim7_join_success_and_reentrant (s : PanelState) :
    (canJoin s = true → s.voiceStatus = VoiceStatus.idle →
      ((startVoice s true).1.localStream = some { enabled := false } ∧
       (startVoice s true).1.voiceStatus = VoiceStatus.online ∧
       Effect.emit SocketEvent.voiceReady ∈ (startVoice s true).2)) ∧
    (∀ micOk : Bool, s.voiceStatus ≠ VoiceStatus.idle →
      ((startVoice s micOk).2 = [] ∧
       (startVoice s micOk).1 =
         (if canJoin s = true then s else joinBlockedState s))) := by
  constructor
  · intro hcj hidle
    simp [startVoice, hcj, hidle]
  · intro micOk hne
    by_cases hcj : canJoin s = true
    · simp [startVoice, hcj, hne]
    · have hcf : canJoin s = false := by
        cases hx : canJoin s
        · rfl
        · exact absurd hx hcj
      simp [startVoice, hcf, hcj, joinBlockedState]

/-- Witness for C7 (amended): success from the concrete idle state, and a
re-entrant call at the concrete online state. -/
theorem claim7_join_success_and_reentrant_witness :
    ((startVoice sampleIdle true).1.voiceStatus = VoiceStatus.online) ∧
    ((startVoice sampleOnline false).2 = []) :=
  ⟨((claim7_join_success_and_reentrant sampleIdle).1 rfl rfl).2.1,
   ((claim7_join_success_and_reentrant sampleOnline).2 false (by decide)).1⟩

/-- C8: when the microphone request fails during a join that passed its
preconditions, the session returns to idle with a user-visible error, no
local stream is retained, no `voice:ready` is emitted, and no peer
connection is created (the only logged effect is the capture attempt and
the peer table is untouched). -/
theorem claim8_mic_failure (s : PanelState)
    (hcj : canJoin s = true) (hidle : s.voiceStatus = VoiceStatus.idle)
    (hls : s.localStream = none) :
    (startVoice s false).1.voiceStatus = VoiceStatus.idle ∧
    (startVoice s false).1.localStream = none ∧
    (startVoice s false).1.voiceError =
      some "Microphone access denied. Please allow audio permissions." ∧
    (startVoice s false).1.peers = s.peers ∧
    (startVoice s false).2 = [Effect.captureMic] := by
  simp [startVoice, hcj, hidle, hls]

/-- Witness for C8 at the concrete idle state. -/
theorem claim8_mic_failure_witness :
    (startVoice sampleIdle false).1.voiceStatus = VoiceStatus.idle ∧
    (startVoice sampleIdle false).2 = [Effect.captureMic] :=
  ⟨(claim8_mic_failure sampleIdle rfl rfl rfl).1,
   (claim8_mic_failure sampleIdle rfl rfl rfl).2.2.2.2⟩

/-- C9: a `voice:status` event about the local player overwrites all
three local flags with the payload values; the session status is
untouched and no status guard exists, so the overwrite happens from idle,
starting and online alike. -/
theorem claim9_status_echo (s : PanelState) (payload : Participant)
    (hself : s.selfPlayerId = some payload.playerId) :
    (handleStatus s payload).manualMuted = payload.isMuted ∧
    (handleStatus s payload).autoMuted = payload.isAutoMuted ∧
    (handleStatus s payload).pushActive = payload.pushToTalkPressed ∧
    (handleStatus s payload).voiceStatus = s.voiceStatus := by
  simp [handleStatus, hself]

/-- Witness for C9: a server echo flips the flags of the idle local
player "alice". -/
theorem claim9_status_echo_witness :
    (handleStatus sampleIdle
      { playerId := "alice", displayName := "Alice", isMuted := false,
        isAutoMuted := true, pushToTalkPressed := true }).manualMuted = false :=
  (claim9_status_echo sampleIdle
    { playerId := "alice", displayName := "Alice", isMuted := false,
      isAutoMuted := true, pushToTalkPressed := true } rfl).1

/-- C6: receiving `voice:inactive` while online tears the session down to
idle — no peer records, no local stream — and any `voice:participants`
event delivered before a new join only stores the roster snapshot:
reconciliation returns early with no effects because the local stream is
gone, so no PeerRecord is recreated. -/
theorem claim6_inactive_then_roster (s : PanelState)
    (hon : s.voiceStatus = VoiceStatus.online) :
    (handleInactive s).1.voiceStatus = VoiceStatus.idle ∧
    (handleInactive s).1.peers = [] ∧
    (handleInactive s).1.localStream = none ∧
    (∀ roster, handleParticipants (handleInactive s).1 roster =
      Except.ok ({ (handleInactive s).1 with participants := roster }, [])) := by
  have hne : s.voiceStatus ≠ VoiceStatus.idle := by
    rw [hon]
    intro hh
    exact VoiceStatus.noConfusion hh
  have hlsnone : (handleInactive s).1.localStream = none := by
    simp [handleInactive, hne, stopVoice]
  refine ⟨?_, ?_, hlsnone, ?_⟩
  · simp [handleInactive, hne, stopVoice]
  · simp [handleInactive, hne, stopVoice]
  · intro roster
    cases hself : (handleInactive s).1.selfPlayerId with
    | none => simp [handleParticipants, hself]
    | some selfId =>
      simp only [handleParticipants, hself]
      exact sync_skip _ roster (Or.inr (Or.inl hlsnone))

/-- Witness for C6 at the concrete online state with an empty follow-up
roster. -/
theorem claim6_inactive_then_roster_witness :
    (handleInactive sampleOnline).1.voiceStatus = VoiceStatus.idle ∧
    handleParticipants (handleInactive sampleOnline).1 [] =
      Except.ok ({ (handleInactive sampleOnline).1 with participants := [] }, []) :=
  ⟨(claim6_inactive_then_roster sampleOnline rfl).1,
   (claim6_inactive_then_roster sampleOnline rfl).2.2.2 []⟩

theorem offerLoopAsync_nil_found_stale (hd : String) (rest : List String)
    (s : PanelState) (r : PeerRecord)
    (hf : findPeer s.peers hd = some r)
    (hc : ¬(r.signaling = SignalingState.stable ∧ r.negotiated = false)) :
    offerLoopAsync (hd :: rest) [] s =
      (match offerLoopAsync rest [] s with
       | Except.error e => Except.error e
       | Except.ok (s4, effs4) => Except.ok (s4, effs4)) := by
  cases hrec : offerLoopAsync rest [] s with
  | error e => simp [offerLoopAsync, ensurePeerConnection, hf, hc, hrec]
  | ok out =>
    obtain ⟨s4, effs4⟩ := out
    simp [offerLoopAsync, ensurePeerConnection, hf, hc, hrec]

theorem offerLoopAsync_nil_found_fresh (hd : String) (rest : List String)
    (s : PanelState) (r : PeerRecord)
    (hf : findPeer s.peers hd = some r)
    (hc : r.signaling = SignalingState.stable ∧ r.negotiated = false) :
    offerLoopAsync (hd :: rest) [] s =
      (match offerLoopAsync rest [] { s with peers := setPeer s.peers hd (offeredRecord r) } with
       | Except.error e => Except.error e
       | Except.ok (s4, effs4) =>
         Except.ok (s4, Effect.emit (SocketEvent.voiceOffer hd) :: effs4)) := by
  have hkey : hasKey s.peers hd = true := by simp [hasKey, hf]
  cases hrec : offerLoopAsync rest [] { s with peers := setPeer s.peers hd (offeredRecord r) } with
  | error e =>
    simp only [offeredRecord] at hrec
    simp [offerLoopAsync, ensurePeerConnection, hf, hc.1, hc.2, runInterleave, hkey,
      offeredRecord, hrec]
  | ok out =>
    obtain ⟨s4, effs4⟩ := out
    simp only [offeredRecord] at hrec
    simp [offerLoopAsync, ensurePeerConnection, hf, hc.1, hc.2, runInterleave, hkey,
      offeredRecord, hrec]

theorem offerLoopAsync_nil_new (hd : String) (rest : List String) (s : PanelState)
    (ls : LocalStream) (hls : s.localStream = some ls)
    (hf : findPeer s.peers hd = none) :
    offerLoopAsync (hd :: rest) [] s =
      (match offerLoopAsync rest []
          { s with peers := setPeer (setPeer s.peers hd (freshRecord hd)) hd (offeredRecord (freshRecord hd)) } with
       | Except.error e => Except.error e
       | Except.ok (s4, effs4) =>
         Except.ok (s4, Effect.createConnection hd ::
           Effect.emit (SocketEvent.voiceOffer hd) :: effs4)) := by
  cases hrec : offerLoopAsync rest []
      { s with peers := setPeer (setPeer s.peers hd (freshRecord hd)) hd (offeredRecord (freshRecord hd)) } with
  | error e =>
    simp only [offeredRecord, freshRecord, hls] at hrec
    simp [offerLoopAsync, ensurePeerConnection, hf, hls, runInterleave, hasKey,
      findPeer_setPeer_self, offeredRecord, freshRecord, hrec]
  | ok out =>
    obtain ⟨s4, effs4⟩ := out
    simp only [offeredRecord, freshRecord, hls] at hrec
    simp [offerLoopAsync, ensurePeerConnection, hf, hls, runInterleave, hasKey,
      findPeer_setPeer_self, offeredRecord, freshRecord, hrec]

theorem offerLoopAsync_nil_ok (ids : List String) :
    ∀ (s : PanelState) (ls : LocalStream), s.localStream = some ls →
      isOkE (offerLoopAsync ids [] s) = true := by
  induction ids with
  | nil =>
    intro s ls hls
    rfl
  | cons hd rest ih =>
    intro s ls hls
    cases hf : findPeer s.peers hd with
    | some r =>
      by_cases hc : r.signaling = SignalingState.stable ∧ r.negotiated = false
      · rw [offerLoopAsync_nil_found_fresh hd rest s r hf hc]
        have hrek := ih { s with peers := setPeer s.peers hd (offeredRecord r) } ls hls
        cases hrec : offerLoopAsync rest [] { s with peers := setPeer s.peers hd (offeredRecord r) } with
        | error e => rw [hrec] at hrek; exact Bool.noConfusion hrek
        | ok out =>
          obtain ⟨s4, effs4⟩ := out
          rfl
      · rw [offerLoopAsync_nil_found_stale hd rest s r hf hc]
        have hrek := ih s ls hls
        cases hrec : offerLoopAsync rest [] s with
        | error e => rw [hrec] at hrek; exact Bool.noConfusion hrek
        | ok out =>
          obtain ⟨s4, effs4⟩ := out
          rfl
    | none =>
      rw [offerLoopAsync_nil_new hd rest s ls hls hf]
      have hrek := ih
        { s with peers := setPeer (setPeer s.peers hd (freshRecord hd)) hd (offeredRecord (freshRecord hd)) } ls hls
      cases hrec : offerLoopAsync rest []
          { s with peers := setPeer (setPeer s.peers hd (freshRecord hd)) hd (offeredRecord (freshRecord hd)) } with
      | error e => rw [hrec] at hrek; exact Bool.noConfusion hrek
      | ok out =>
        obtain ⟨s4, effs4⟩ := out
        rfl

theorem syncAsync_skip (s : PanelState) (roster : List Participant)
    (sched : List Interleave)
    (h : s.socket = false ∨ s.localStream = none ∨ s.selfPlayerId = none) :
    syncPeerConnectionsAsync s roster sched = Except.ok (s, []) := by
  obtain ⟨so, rc, self, ic, ima, sfd, vs, mm, am, pa, parts, ve, im, lstr, prs, rst⟩ := s
  dsimp only at h
  rcases h with h | h | h
  · subst h; rfl
  · subst h
    cases so
    · rfl
    · rfl
  · subst h
    cases so
    · rfl
    · cases lstr
      · rfl
      · rfl

theorem syncAsync_unfold (s : PanelState) (ls : LocalStream) (selfId : String)
    (roster : List Participant) (sched : List Interleave)
    (hso : s.socket = true) (hls : s.localStream = some ls)
    (hself : s.selfPlayerId = some selfId) :
    syncPeerConnectionsAsync s roster sched =
      (match offerLoopAsync (activeIdsOf selfId roster) sched
          { s with
            peers := (removePass (activeIdsOf selfId roster) s.peers s.remoteStreams).1
            remoteStreams :=
              (removePass (activeIdsOf selfId roster) s.peers s.remoteStreams).2.1 } with
       | Except.error e => Except.error e
       | Except.ok (s2, effs2) =>
         Except.ok (s2,
           (removePass (activeIdsOf selfId roster) s.peers s.remoteStreams).2.2 ++ effs2)) := by
  obtain ⟨so, rc, self, ic, ima, sfd, vs, mm, am, pa, parts, ve, im, lstr, prs, rst⟩ := s
  dsimp only at hso hls hself
  subst hso hls hself
  rfl

/-- An online session with an empty mesh, about to receive its first
roster with two remote peers. -/
def asyncStart : PanelState :=
  { sampleOnline with
    peers := []
    remoteStreams := [] }

/-- A roster bringing two remote peers "bob" and "carol" (the local
player is "alice"). -/
def rosterBC : List Participant :=
  [{ playerId := "bob", displayName := "Bob", isMuted := true,
     isAutoMuted := false, pushToTalkPressed := false },
   { playerId := "carol", displayName := "Carol", isMuted := true,
     isAutoMuted := false, pushToTalkPressed := false }]

/-- C10 counterexample: the `"Local stream missing"` throw IS reachable
from the `voice:participants` handler.  With two peers to offer, a
`stopVoice` (user Leave, `voice:inactive`, `voice:shutdown` or the
socket-null effect) interleaved at the first offer's
`createOffer`/`setLocalDescription` awaits clears the peer table and
nulls the local stream; the second iteration's `ensurePeerConnection` —
outside the try/catch — then finds no record and no stream and throws,
refuting the claim that the entry guard makes the branch unreachable. -/
theorem claim10_counterexample :
    syncPeerConnectionsAsync asyncStart rosterBC
      [Interleave.stop (some "manual")] = Except.error "Local stream missing" := rfl

/-- C10 (amended): the `"Local stream missing"` branch of
`ensurePeerConnection` is unreachable in every uninterrupted run of its
two callers: a `syncPeerConnections` run during which no other handler
interleaves at the offer awaits (empty schedule — and likewise the
atomic rendering of a completed run) never throws, and the
`voice:offer` handler never throws since its null-stream guard and
`ensurePeerConnection`'s stream read execute in the same synchronous
slice with no suspension between them.  Reachability requires a
teardown interleaved mid-loop, as in the counterexample. -/
theorem claim10_guarded_no_throw :
    (∀ (s : PanelState) (roster : List Participant),
      isOkE (syncPeerConnectionsAsync s roster []) = true) ∧
    (∀ (s : PanelState) (roster : List Participant),
      isOkE (syncPeerConnections s roster) = true) ∧
    (∀ (s : PanelState) (fromId : String),
      isOkE (handleOffer s fromId) = true) := by
  refine ⟨?_, ?_, ?_⟩
  · intro s roster
    cases hso : s.socket with
    | false => rw [syncAsync_skip s roster [] (Or.inl hso)]; rfl
    | true =>
      cases hls : s.localStream with
      | none => rw [syncAsync_skip s roster [] (Or.inr (Or.inl hls))]; rfl
      | some ls =>
        cases hself : s.selfPlayerId with
        | none => rw [syncAsync_skip s roster [] (Or.inr (Or.inr hself))]; rfl
        | some selfId =>
          rw [syncAsync_unfold s ls selfId roster [] hso hls hself]
          have hrek := offerLoopAsync_nil_ok (activeIdsOf selfId roster)
            { s with
              peers := (removePass (activeIdsOf selfId roster) s.peers s.remoteStreams).1
              remoteStreams :=
                (removePass (activeIdsOf selfId roster) s.peers s.remoteStreams).2.1 }
            ls hls
          cases hrec : offerLoopAsync (activeIdsOf selfId roster) []
              { s with
                peers := (removePass (activeIdsOf selfId roster) s.peers s.remoteStreams).1
                remoteStreams :=
                  (removePass (activeIdsOf selfId roster) s.peers s.remoteStreams).2.1 } with
          | error e => rw [hrec] at hrek; exact Bool.noConfusion hrek
          | ok out =>
            obtain ⟨s4, effs4⟩ := out
            rfl
  · intro s roster
    obtain ⟨out, h⟩ := sync_ok s roster
    rw [h]
    rfl
  · intro s fromId
    exact handleOffer_ok s fromId

/-- After one reconciliation pass (removal then offers, both over the
same active id list), the key set of the resulting peer table is exactly
the active id list. -/
theorem loop_after_remove_keys (ls : LocalStream) (a : List String)
    (ps : List (String × PeerRecord)) (rs : List String)
    (ps2 : List (String × PeerRecord)) (effs2 : List Effect)
    (hrec : offerLoop (some ls) a (removePass a ps rs).1 = Except.ok (ps2, effs2)) :
    ∀ id, hasKey ps2 id = memb id a := by
  intro id
  have h3 := offerLoop_hasKey ls a _ ps2 effs2 hrec id
  rw [removePass_peers, hasKey_filter_memb] at h3
  rw [h3]
  cases hasKey ps id <;> cases memb id a <;> rfl

/-- C2: with a socket, a local stream and a known local id, after
`syncPeerConnections(roster)` the set of live peer-record keys is exactly
the roster's participant ids minus the local id; every stored record
whose id is absent from the roster gets its connection closed, its
record removed, its entry dropped from the remote-stream table, and its
remote stream stopped when one was registered. -/
theorem claim2_roster_reconciliation (s : PanelState) (ls : LocalStream) (selfId : String)
    (roster : List Participant) (s' : PanelState) (log : List Effect)
    (hso : s.socket = true) (hls : s.localStream = some ls)
    (hself : s.selfPlayerId = some selfId)
    (hrun : syncPeerConnections s roster = Except.ok (s', log)) :
    (∀ id, hasKey s'.peers id = true ↔
      (id ≠ selfId ∧ ∃ p ∈ roster, p.playerId = id)) ∧
    (∀ id, hasKey s.peers id = true → (∀ p ∈ roster, p.playerId ≠ id) →
      (Effect.closeConnection id ∈ log ∧
       hasKey s'.peers id = false ∧
       id ∉ s'.remoteStreams ∧
       (id ∈ s.remoteStreams → Effect.stopRemoteStream id ∈ log))) := by
  rw [sync_unfold s ls selfId roster hso hls hself] at hrun
  set a := activeIdsOf selfId roster with ha
  cases hrec : offerLoop (some ls) a (removePass a s.peers s.remoteStreams).1 with
  | error e => rw [hrec] at hrun; cases hrun
  | ok out =>
    obtain ⟨ps2, effs2⟩ := out
    rw [hrec] at hrun
    simp only [Except.ok.injEq, Prod.mk.injEq] at hrun
    obtain ⟨h1, h2⟩ := hrun
    subst h1
    subst h2
    have hkeys := loop_after_remove_keys ls a s.peers s.remoteStreams ps2 effs2 hrec
    constructor
    · intro id
      show hasKey ps2 id = true ↔ _
      rw [hkeys id, memb_iff, ha]
      exact activeIdsOf_mem selfId id roster
    · intro id hk hab
      have hmf : memb id a = false := by
        cases hm : memb id a
        · rfl
        · exfalso
          rw [memb_iff, ha, activeIdsOf_mem] at hm
          obtain ⟨hne, p, hp, hpid⟩ := hm
          exact hab p hp hpid
      refine ⟨?_, ?_, ?_, ?_⟩
      · apply List.mem_append_left
        exact removePass_close_eff a s.peers s.remoteStreams id hk hmf
      · show hasKey ps2 id = false
        rw [hkeys id]
        exact hmf
      · show id ∉ (removePass a s.peers s.remoteStreams).2.1
        exact removePass_remote_removed a s.peers s.remoteStreams id hk hmf
      · intro hrs
        apply List.mem_append_left
        exact removePass_stop_eff a s.peers s.remoteStreams id hk hmf hrs

/-- The roster `[alice, carol]` delivered to the concrete online state
(whose mesh holds only "bob"). -/
def rosterAC : List Participant :=
  [{ playerId := "alice", displayName := "Alice", isMuted := true,
     isAutoMuted := false, pushToTalkPressed := false },
   { playerId := "carol", displayName := "Carol", isMuted := true,
     isAutoMuted := false, pushToTalkPressed := false }]

/-- The state `syncPeerConnections` produces from `sampleOnline` and
`rosterAC`: "bob" torn down, "carol" created and offered. -/
def sampleSynced : PanelState :=
  { sampleOnline with
    peers := [("carol",
      { targetPlayerId := "carol", negotiated := true,
        signaling := SignalingState.haveLocalOffer })]
    remoteStreams := [] }

/-- The effect log of that reconciliation run. -/
def sampleSyncLog : List Effect :=
  [Effect.closeConnection "bob", Effect.stopRemoteStream "bob",
   Effect.createConnection "carol", Effect.emit (SocketEvent.voiceOffer "carol")]

/-- Witness for C2: in the concrete run, "carol" is live afterwards. -/
theorem claim2_roster_reconciliation_witness :
    hasKey sampleSynced.peers "carol" = true ↔
      ("carol" ≠ "alice" ∧ ∃ p ∈ rosterAC, p.playerId = "carol") :=
  (claim2_roster_reconciliation sampleOnline { enabled := false } "alice" rosterAC
    sampleSynced sampleSyncLog rfl rfl rfl rfl).1 "carol"

/-- C4: reconciliation is idempotent — repeating `syncPeerConnections`
with the same roster right after a successful run returns the state
unchanged with an empty effect log: no connection is created, no second
`voice:offer` is sent for any id, and no record is torn down, because
existing records are returned unchanged and after the first run every
active record is negotiated or no longer signaling-stable. -/
theorem claim4_reconcile_idempotent (s : PanelState) (ls : LocalStream) (selfId : String)
    (roster : List Participant) (s1 : PanelState) (log1 : List Effect)
    (hso : s.socket = true) (hls : s.localStream = some ls)
    (hself : s.selfPlayerId = some selfId)
    (hrun : syncPeerConnections s roster = Except.ok (s1, log1)) :
    syncPeerConnections s1 roster = Except.ok (s1, []) := by
  rw [sync_unfold s ls selfId roster hso hls hself] at hrun
  set a := activeIdsOf selfId roster with ha
  cases hrec : offerLoop (some ls) a (removePass a s.peers s.remoteStreams).1 with
  | error e => rw [hrec] at hrun; cases hrun
  | ok out =>
    obtain ⟨ps2, effs2⟩ := out
    rw [hrec] at hrun
    simp only [Except.ok.injEq, Prod.mk.injEq] at hrun
    obtain ⟨h1, h2⟩ := hrun
    have hkeys := loop_after_remove_keys ls a s.peers s.remoteStreams ps2 effs2 hrec
    have hso1 : s1.socket = true := by rw [← h1]; exact hso
    have hls1 : s1.localStream = some ls := by rw [← h1]; exact hls
    have hself1 : s1.selfPlayerId = some selfId := by rw [← h1]; exact hself
    have hpeers1 : s1.peers = ps2 := by rw [← h1]
    have hrem1 : s1.remoteStreams = (removePass a s.peers s.remoteStreams).2.1 := by
      rw [← h1]
    have hnoopR : removePass a ps2 (removePass a s.peers s.remoteStreams).2.1 =
        (ps2, (removePass a s.peers s.remoteStreams).2.1, []) := by
      apply removePass_noop
      intro e he
      have hk := hasKey_of_mem he
      rw [hkeys e.1] at hk
      exact hk
    have hnoopO : offerLoop (some ls) a ps2 = Except.ok (ps2, []) := by
      apply offerLoop_noop
      intro id hid
      exact offerLoop_post ls a _ ps2 effs2 hrec id hid
    rw [sync_unfold s1 ls selfId roster hso1 hls1 hself1, ← ha]
    rw [hpeers1, hrem1, hnoopR]
    dsimp only
    rw [hnoopO]
    rw [← hpeers1, ← hrem1]
    simp

/-- Witness for C4: the second concrete reconciliation run is a silent
no-op. -/
theorem claim4_reconcile_idempotent_witness :
    syncPeerConnections sampleSynced rosterAC = Except.ok (sampleSynced, []) :=
  claim4_reconcile_idempotent sampleOnline { enabled := false } "alice" rosterAC
    sampleSynced sampleSyncLog rfl rfl rfl rfl

end VoicePanel
